import Mathlib

/-!
Verification of the TeeTimes golf-course scraping and search pipeline
(`golfzon_scraper.py`, `easy_search.py`, `visual.py`) against its
natural-language specification.

Shallow embedding notes:
* Python strings are Lean `String`; Python `None`-able values are `Option`.
* Python `float` is modelled as exact rationals (`ℚ`); floating-point
  rounding/overflow is outside the embedding.
* The regex `NUM_RE = r"-?\d+(?:[\d,]*\d)?(?:\.\d+)?"` is only ever run on
  comma-free text by `to_int_maybe` / `to_float_maybe` (the input has
  `.replace(",", "")` applied first), where it is equivalent to
  `-?\d+(?:\.\d+)?` with leftmost-greedy search; `numSearch` below models
  that search directly.
-/

namespace TeeTimes

/-- Digits of a numeral, most significant first, to its value. -/
def digitsVal (ds : List Char) : Nat :=
  ds.foldl (fun n c => 10 * n + (c.toNat - 48)) 0

/-- A match of `NUM_RE` on comma-free text: optional leading minus sign,
a nonempty integer digit run, and an optional fractional digit run. -/
structure NumTok where
  neg : Bool
  intPart : List Char
  fracPart : List Char
deriving DecidableEq, Repr

/-- Greedy continuation of a `NUM_RE` match that starts at the current
position with sign `neg`: maximal digit run, then `.` plus a digit run if
present (the `(?:\.\d+)?` group). -/
def numFrom (neg : Bool) (cs : List Char) : NumTok :=
  let ip := cs.takeWhile Char.isDigit
  let rest := cs.dropWhile Char.isDigit
  match rest with
  | '.' :: r2 =>
    let fp := r2.takeWhile Char.isDigit
    if fp = [] then ⟨neg, ip, []⟩ else ⟨neg, ip, fp⟩
  | _ => ⟨neg, ip, []⟩

/-- `re.search` of `NUM_RE` over comma-free text: scan left to right; a
match starts at a digit, or at a `-` that is immediately followed by a
digit. -/
def numSearch : List Char → Option NumTok
  | [] => none
  | c :: rest =>
    if c.isDigit then some (numFrom false (c :: rest))
    else if c = '-' then
      match rest with
      | c2 :: _ => if c2.isDigit then some (numFrom true rest) else numSearch rest
      | [] => none
    else numSearch rest

/-- `int(float(tok))`: truncation toward zero drops the fractional part. -/
def tokInt (t : NumTok) : Int :=
  (if t.neg then -1 else 1) * (digitsVal t.intPart : Int)

/-- `float(tok)` as an exact rational. -/
def tokFloat (t : NumTok) : ℚ :=
  (if t.neg then -1 else 1) *
    ((digitsVal t.intPart : ℚ) + (digitsVal t.fracPart : ℚ) / (10 : ℚ) ^ t.fracPart.length)

/-- `text.replace(",", "")`. -/
def stripCommas (s : String) : String := ⟨s.data.filter (fun c => c ≠ ',')⟩

/-- `to_int_maybe` from `golfzon_scraper.py` lines 17-26: empty text is
falsy and yields `None`; otherwise search `NUM_RE` on the comma-stripped
text and convert the match via `int(float(...))`.  The guarded
`ValueError` can never fire on a `NUM_RE` match. -/
def to_int_maybe (text : String) : Option Int :=
  if text = "" then none
  else (numSearch (stripCommas text).data).map tokInt

/-- `to_float_maybe` from `golfzon_scraper.py` lines 28-37. -/
def to_float_maybe (text : String) : Option ℚ :=
  if text = "" then none
  else (numSearch (stripCommas text).data).map tokFloat

/-- The text contains at least one decimal digit. -/
def hasDigit (s : String) : Bool := s.data.any Char.isDigit

theorem numSearch_isSome (cs : List Char) :
    (numSearch cs).isSome = cs.any Char.isDigit := by
  induction cs with
  | nil => rfl
  | cons c rest ih =>
    by_cases hd : c.isDigit
    · simp [numSearch, hd, List.any_cons]
    · by_cases hm : c = '-'
      · subst hm
        cases rest with
        | nil => simp [numSearch, hd]
        | cons c2 r2 =>
          by_cases h2 : c2.isDigit
          · simp [numSearch, hd, h2, List.any_cons]
          · simpa [numSearch, hd, h2, List.any_cons] using ih
      · simpa [numSearch, hd, hm, List.any_cons] using ih

theorem any_digit_filter (l : List Char) :
    (l.filter (fun c => c ≠ ',')).any Char.isDigit = l.any Char.isDigit := by
  rw [List.any_filter]
  congr 1
  funext c
  by_cases hc : c = ','
  · subst hc; decide
  · simp [hc]

theorem hasDigit_stripCommas (s : String) :
    hasDigit (stripCommas s) = hasDigit s := by
  unfold hasDigit stripCommas
  exact any_digit_filter s.data

theorem isSome_option_map {α β : Type} (f : α → β) (o : Option α) :
    (o.map f).isSome = o.isSome := by cases o <;> rfl

theorem toIntMaybe_isSome (s : String) : (to_int_maybe s).isSome = hasDigit s := by
  unfold to_int_maybe
  by_cases h : s = ""
  · subst h; simp [hasDigit]
  · rw [if_neg h, isSome_option_map, numSearch_isSome]
    exact hasDigit_stripCommas s

theorem toFloatMaybe_isSome (s : String) : (to_float_maybe s).isSome = hasDigit s := by
  unfold to_float_maybe
  by_cases h : s = ""
  · subst h; simp [hasDigit]
  · rw [if_neg h, isSome_option_map, numSearch_isSome]
    exact hasDigit_stripCommas s

theorem toIntMaybe_of_no_digit {s : String} (h : hasDigit s = false) :
    to_int_maybe s = none := by
  have hs := toIntMaybe_isSome s
  rw [h] at hs
  exact Option.not_isSome_iff_eq_none.mp (by simp [hs])

/-! ### Python string primitives used by the search tools -/

/-- `str.strip()` (ASCII whitespace; the unicode extras Python also strips
do not occur in this dataset). -/
def pyStrip (s : String) : String :=
  ⟨((s.data.dropWhile Char.isWhitespace).reverse.dropWhile Char.isWhitespace).reverse⟩

/-- `needle` is a prefix of `hay`. -/
def prefixOfL : List Char → List Char → Bool
  | [], _ => true
  | _ :: _, [] => false
  | a :: as, b :: bs => a = b && prefixOfL as bs

/-- `s.startswith(p)`. -/
def pyStartsWith (s p : String) : Bool := prefixOfL p.data s.data

/-- `s[n:]`. -/
def sDrop (n : Nat) (s : String) : String := ⟨s.data.drop n⟩

/-- `s.split(sep, 1)`: the part before the first occurrence of `sep` and
everything after it (callers check `sep in s` first). -/
def splitFirst (sep : Char) (s : String) : String × String :=
  (⟨s.data.takeWhile (fun c => c ≠ sep)⟩,
   ⟨(s.data.dropWhile (fun c => c ≠ sep)).tail⟩)

/-- Accumulator-based scan behind `digitRuns`: `cur` holds the reversed
digits of the run currently being read. -/
def digitRunsAux : List Char → List Char → List (List Char)
  | [], cur => if cur = [] then [] else [cur.reverse]
  | c :: rest, cur =>
    if c.isDigit then digitRunsAux rest (c :: cur)
    else if cur = [] then digitRunsAux rest []
    else cur.reverse :: digitRunsAux rest []

/-- `re.findall(r"\d+", t)`: the maximal digit runs of `t`, left to right. -/
def digitRuns (l : List Char) : List (List Char) := digitRunsAux l []

/-- Python truthiness of an `Optional[int]`: `None` and `0` are falsy. -/
def pyTruthyInt : Option Int → Bool
  | none => false
  | some n => n ≠ 0

/-- `a > b` under the guard that both are present (Python's short-circuit
`a and b and a > b` only evaluates the comparison when both are ints). -/
def optGt : Option Int → Option Int → Bool
  | some x, some y => x > y
  | _, _ => false

/-- `parse_yardage_range` from `easy_search.py` lines 66-88 (the copy in
`visual.py` lines 81-105 is identical): empty text is falsy; the text is
stripped then has every `,` removed; a text containing `-` is split at the
first `-` and the halves are numeric-extracted (swapped when both truthy
and descending); otherwise a `>=` / `<=` prefix gives a one-sided bound;
otherwise the first one or two maximal digit runs decide. -/
def parse_yardage_range (text : String) : Option Int × Option Int :=
  if text = "" then (none, none)
  else
    let t := stripCommas (pyStrip text)
    if t.data.contains '-' then
      let a := to_int_maybe (splitFirst '-' t).1
      let b := to_int_maybe (splitFirst '-' t).2
      if pyTruthyInt a && pyTruthyInt b && optGt a b then (b, a) else (a, b)
    else if pyStartsWith t ">=" then (to_int_maybe (sDrop 2 t), none)
    else if pyStartsWith t "<=" then (none, to_int_maybe (sDrop 2 t))
    else
      let nums := ((digitRuns t.data).map (fun r => to_int_maybe ⟨r⟩)).reduceOption
      match nums with
      | [] => (none, none)
      | [n] => (some n, some n)
      | n1 :: n2 :: _ => if n1 > n2 then (some n2, some n1) else (some n1, some n2)

theorem any_false_of_sublist {p : Char → Bool} {l l' : List Char}
    (hsub : List.Sublist l' l) (h : l.any p = false) : l'.any p = false := by
  rw [List.any_eq_false] at h ⊢
  intro x hx
  exact h x (hsub.subset hx)

theorem any_reverse_eq (p : Char → Bool) (l : List Char) :
    l.reverse.any p = l.any p := by
  cases hl : l.any p
  · rw [List.any_eq_false] at hl ⊢
    intro x hx
    exact hl x (List.mem_reverse.mp hx)
  · rw [List.any_eq_true] at hl ⊢
    obtain ⟨x, hx, hp⟩ := hl
    exact ⟨x, List.mem_reverse.mpr hx, hp⟩

theorem hasDigit_pyStrip_false {s : String} (h : hasDigit s = false) :
    hasDigit (pyStrip s) = false := by
  unfold hasDigit pyStrip at *
  rw [any_reverse_eq]
  refine any_false_of_sublist (List.dropWhile_sublist _) ?_
  rw [any_reverse_eq]
  exact any_false_of_sublist (List.dropWhile_sublist _) h

theorem digitRunsAux_of_no_digit {l : List Char} (h : l.any Char.isDigit = false) :
    digitRunsAux l [] = [] := by
  induction l with
  | nil => rfl
  | cons c rest ih =>
    rw [List.any_cons] at h
    simp only [Bool.or_eq_false_iff] at h
    rw [digitRunsAux, if_neg (by simp [h.1]), if_pos rfl]
    exact ih h.2

theorem digitRuns_of_no_digit {l : List Char} (h : l.any Char.isDigit = false) :
    digitRuns l = [] := digitRunsAux_of_no_digit h

theorem parse_yardage_none_of_no_digit (s : String) (h : hasDigit s = false) :
    parse_yardage_range s = (none, none) := by
  unfold parse_yardage_range
  by_cases he : s = ""
  · rw [if_pos he]
  · rw [if_neg he]
    have ht : hasDigit (stripCommas (pyStrip s)) = false := by
      rw [hasDigit_stripCommas]
      exact hasDigit_pyStrip_false h
    set t := stripCommas (pyStrip s) with htdef
    by_cases hc : t.data.contains '-'
    · rw [if_pos hc]
      have ha : to_int_maybe (splitFirst '-' t).1 = none := by
        apply toIntMaybe_of_no_digit
        exact any_false_of_sublist (List.takeWhile_sublist _) ht
      have hb : to_int_maybe (splitFirst '-' t).2 = none := by
        apply toIntMaybe_of_no_digit
        refine any_false_of_sublist (List.tail_sublist _) ?_
        exact any_false_of_sublist (List.dropWhile_sublist _) ht
      simp [ha, hb, pyTruthyInt]
    · rw [if_neg hc]
      have hdrop : to_int_maybe (sDrop 2 t) = none := by
        apply toIntMaybe_of_no_digit
        exact any_false_of_sublist (List.drop_sublist _ _) ht
      by_cases hge : pyStartsWith t ">=" <;> by_cases hle : pyStartsWith t "<=" <;>
        simp [hge, hle, hdrop, digitRuns_of_no_digit ht]

/-- **C5.** `to_int_maybe` / `to_float_maybe` return a number exactly when
the text contains a digit (never an exception, never a fallback zero),
strip comma thousands separators, tolerate surrounding non-numeric text,
and take the first (leftmost) numeric substring. -/
theorem C5_numeric_extractor_contract :
    (∀ s : String, (to_int_maybe s).isSome = hasDigit s) ∧
    (∀ s : String, (to_float_maybe s).isSome = hasDigit s) ∧
    to_int_maybe "6,500 yd" = some 6500 ∧
    to_int_maybe "PAR 4" = some 4 ∧
    to_int_maybe "72H" = some 72 ∧
    to_int_maybe "10 yd then 20 yd" = some 10 ∧
    to_int_maybe "no digits here" = none ∧
    to_int_maybe "" = none ∧
    to_float_maybe "height -12.5 m" = some (-25/2) := by
  refine ⟨toIntMaybe_isSome, toFloatMaybe_isSome, by decide, by decide, by decide,
    by decide, by decide, by decide, ?_⟩
  have h : numSearch (stripCommas "height -12.5 m").data =
      some ⟨true, ['1', '2'], ['5']⟩ := by decide
  unfold to_float_maybe
  rw [if_neg (by decide), h]
  have h1 : digitsVal ['1', '2'] = 12 := by decide
  have h2 : digitsVal ['5'] = 5 := by decide
  simp only [Option.map_some', tokFloat, h1, h2]
  norm_num

/-- **C4 (counterexample).** Two bare numbers separated by a comma are NOT
parsed as two numeric tokens: commas are removed as thousands separators
before tokenizing, so `"6000,6500"` collapses to the single number
`60006500`, not the pair `(6000, 6500)` the claim requires. -/
theorem C4_counterexample_comma_pair :
    parse_yardage_range "6000,6500" = (some 60006500, some 60006500) ∧
    ¬ parse_yardage_range "6000,6500" = (some 6000, some 6500) :=
  ⟨by decide, by decide⟩

/-- **C4 (amended).** `parse_yardage_range` maps a dash range to its two
bounds, `>=N` / `<=N` to one-sided bounds, a single bare number `N` to
`(N, N)`, and two bare numbers separated by whitespace to the first two
numeric tokens reordered ascending if descending; commas are treated as
thousands separators and removed before any tokenizing (so a pair
separated only by a comma collapses into one number); input containing no
digit yields `(None, None)`. -/
theorem C4_yardage_range_amended :
    parse_yardage_range "6000-6500" = (some 6000, some 6500) ∧
    parse_yardage_range ">=6200" = (some 6200, none) ∧
    parse_yardage_range "<=6800" = (none, some 6800) ∧
    parse_yardage_range "6400" = (some 6400, some 6400) ∧
    parse_yardage_range "6000 6500" = (some 6000, some 6500) ∧
    parse_yardage_range "6500 6000" = (some 6000, some 6500) ∧
    parse_yardage_range "6,000-6,500" = (some 6000, some 6500) ∧
    (∀ s : String, hasDigit s = false → parse_yardage_range s = (none, none)) :=
  ⟨by decide, by decide, by decide, by decide, by decide, by decide, by decide,
    parse_yardage_none_of_no_digit⟩

/-- Witness for C4: the no-digit clause applied at a concrete input. -/
theorem C4_yardage_range_amended_witness :
    parse_yardage_range "unparseable!" = (none, none) :=
  C4_yardage_range_amended.2.2.2.2.2.2.2 "unparseable!" (by decide)

/-! ### `parse_hole_input` (`easy_search.py` lines 11-30, identical copy in
`visual.py` lines 19-39) -/

/-- `str.isdigit()`: nonempty and all digits (ASCII; the Python unicode
digits do not occur in this dataset). -/
def pyIsDigit (s : String) : Bool := !s.data.isEmpty && s.data.all Char.isDigit

/-- `int(s)` for a string that is digits with optional surrounding
whitespace (the only shape it is applied to here, guarded by
`s.strip().isdigit()`). -/
def pyIntDigits (s : String) : Nat := digitsVal (pyStrip s).data

/-- The clip test `not total_holes or h <= int(total_holes)`: Python
truthiness makes `None` and `0` both mean "no ceiling". -/
def clipOk : Option Nat → Nat → Bool
  | none, _ => true
  | some H, h => if H = 0 then true else h ≤ H

/-- Scanner behind `splitComma`: `cur` holds the reversed characters of
the piece currently being read. -/
def splitCommaAux : List Char → List Char → List String
  | [], cur => [⟨cur.reverse⟩]
  | c :: rest, cur =>
    if c = ',' then ⟨cur.reverse⟩ :: splitCommaAux rest []
    else splitCommaAux rest (c :: cur)

/-- `s.split(",")`: empty pieces are kept, `""` splits to `[""]`. -/
def splitComma (s : String) : List String := splitCommaAux s.data []

/-- The comma-split, stripped tokens of a hole-range expression. -/
def holeTokens (holeInput : String) : List String :=
  (splitComma holeInput).map pyStrip

/-- The set of holes one token adds to the accumulator set: a dash token
with digit halves contributes the inclusive range between them (the code
swaps a descending pair), a digit token contributes its value, anything
else contributes nothing; each element is kept only if the clip test
passes. -/
def tokenContrib (part : String) (totalHoles : Option Nat) : Finset ℕ :=
  if part = "" then ∅
  else if part.data.contains '-' then
    if pyIsDigit (pyStrip (splitFirst '-' part).1) &&
        pyIsDigit (pyStrip (splitFirst '-' part).2) then
      (Finset.Icc (min (pyIntDigits (splitFirst '-' part).1) (pyIntDigits (splitFirst '-' part).2))
          (max (pyIntDigits (splitFirst '-' part).1) (pyIntDigits (splitFirst '-' part).2))).filter
        (fun h => clipOk totalHoles h = true)
    else ∅
  else if pyIsDigit part then
    if clipOk totalHoles (digitsVal part.data) then {digitsVal part.data} else ∅
  else ∅

/-- `sorted(...)` of a finite set of naturals: the ascending duplicate-free
enumeration of its elements, realized as a filter of `0..sup` so that it
both evaluates in the kernel and is easy to reason about
(`sortedOfFinset_mem` / `sortedOfFinset_sorted` justify the model). -/
def sortedOfFinset (s : Finset ℕ) : List ℕ :=
  (List.range (s.sup id + 1)).filter (fun h => h ∈ s)

theorem sortedOfFinset_mem (s : Finset ℕ) (y : ℕ) :
    y ∈ sortedOfFinset s ↔ y ∈ s := by
  unfold sortedOfFinset
  rw [List.mem_filter, List.mem_range]
  constructor
  · rintro ⟨_, hy⟩
    simpa using hy
  · intro hy
    refine ⟨?_, by simpa using hy⟩
    have hle : y ≤ s.sup id := Finset.le_sup (f := id) hy
    omega

theorem sortedOfFinset_sorted (s : Finset ℕ) :
    (sortedOfFinset s).Sorted (· < ·) := by
  unfold sortedOfFinset
  exact (List.pairwise_lt_range _).sublist (List.filter_sublist _)

/-- `parse_hole_input`: accumulate the per-token sets into the Python set
`holes`, then `sorted(holes)`. -/
def parse_hole_input (holeInput : String) (totalHoles : Option Nat) : List ℕ :=
  sortedOfFinset
    ((holeTokens holeInput).foldl (fun acc part => acc ∪ tokenContrib part totalHoles) ∅)

/-- Spec-side reading of one token: it lists hole `h` if it is a digit
token of value `h` or a dash token with digit halves whose inclusive range
contains `h`. -/
def tokenLists (part : String) (h : ℕ) : Bool :=
  if part.data.contains '-' then
    pyIsDigit (pyStrip (splitFirst '-' part).1) &&
      pyIsDigit (pyStrip (splitFirst '-' part).2) &&
      (min (pyIntDigits (splitFirst '-' part).1) (pyIntDigits (splitFirst '-' part).2) ≤ h &&
        h ≤ max (pyIntDigits (splitFirst '-' part).1) (pyIntDigits (splitFirst '-' part).2))
  else pyIsDigit part && digitsVal part.data = h

/-- Hole `h` is listed by some token of the expression. -/
def listedIn (s : String) (h : ℕ) : Bool :=
  (holeTokens s).any (fun p => tokenLists p h)

/-- The claim's words: the union of listed singles and inclusive ranges,
clipped to `[1, H]`, deduplicated, ascending. -/
def specHoleSelection (s : String) (H : ℕ) : List ℕ :=
  sortedOfFinset ((Finset.range (H + 1)).filter (fun h => 1 ≤ h ∧ listedIn s h = true))

/-- The amended reading: clipped above at `H` only (tokens are digit-only,
so no negative value can appear, but `0` is retained). -/
def specHoleSelectionUpper (s : String) (H : ℕ) : List ℕ :=
  sortedOfFinset ((Finset.range (H + 1)).filter (fun h => listedIn s h = true))

theorem mem_foldl_union (f : String → Finset ℕ) (l : List String) (init : Finset ℕ) (h : ℕ) :
    h ∈ l.foldl (fun acc p => acc ∪ f p) init ↔ h ∈ init ∨ ∃ p ∈ l, h ∈ f p := by
  induction l generalizing init with
  | nil => simp
  | cons p rest ih =>
    rw [List.foldl_cons, ih]
    simp [Finset.mem_union, or_assoc]

theorem mem_tokenContrib {H : ℕ} (hH : 1 ≤ H) (part : String) (h : ℕ) :
    h ∈ tokenContrib part (some H) ↔ tokenLists part h = true ∧ h ≤ H := by
  have hclip : ∀ x : ℕ, clipOk (some H) x = decide (x ≤ H) := by
    intro x
    show (if H = 0 then true else decide (x ≤ H)) = decide (x ≤ H)
    rw [if_neg (by omega)]
  unfold tokenContrib tokenLists
  by_cases he : part = ""
  · subst he
    simp [pyIsDigit]
  · rw [if_neg he]
    by_cases hc : part.data.contains '-'
    · rw [if_pos hc, if_pos hc]
      by_cases hd : pyIsDigit (pyStrip (splitFirst '-' part).1) &&
          pyIsDigit (pyStrip (splitFirst '-' part).2)
      · rw [if_pos hd]
        rw [Bool.and_eq_true] at hd
        simp [Finset.mem_filter, Finset.mem_Icc, hclip, hd.1, hd.2, and_assoc]
      · rw [if_neg hd]
        rw [Bool.and_eq_true, not_and_or] at hd
        rcases hd with hd | hd <;> simp [Bool.eq_false_iff.mpr hd]
    · rw [if_neg hc, if_neg hc]
      by_cases hpd : pyIsDigit part
      · rw [if_pos hpd]
        by_cases hcl : clipOk (some H) (digitsVal part.data) = true
        · rw [if_pos hcl]
          rw [hclip] at hcl
          simp only [decide_eq_true_eq] at hcl
          simp only [Finset.mem_singleton, hpd, Bool.true_and, decide_eq_true_eq]
          constructor
          · rintro rfl
            exact ⟨rfl, hcl⟩
          · rintro ⟨rfl, _⟩
            rfl
        · rw [if_neg hcl]
          rw [hclip] at hcl
          simp only [decide_eq_true_eq] at hcl
          simp only [Finset.not_mem_empty, false_iff, not_and]
          intro hlist
          simp only [hpd, Bool.true_and, decide_eq_true_eq] at hlist
          omega
      · rw [if_neg hpd]
        simp [Bool.eq_false_iff.mpr hpd]

/-- **C2 (counterexample).** `"0"` is a digit token; the code only clips
values above the ceiling, never below 1, so with `H = 9` the parse returns
`[0]` while the claim's `[1, H]`-clipped union is empty. -/
theorem C2_counterexample_zero_not_clipped :
    parse_hole_input "0" (some 9) = [0] ∧
    specHoleSelection "0" 9 = [] ∧
    ¬ parse_hole_input "0" (some 9) = specHoleSelection "0" 9 :=
  ⟨by decide, by decide, by decide⟩

/-- **C2 (amended).** For every expression string and known ceiling
`H ≥ 1`, `parse_hole_input` returns exactly the union of listed singles
and inclusive dash-ranges with values above `H` dropped (no lower clip:
the digit-only tokens are never negative, and `0` is retained),
deduplicated and sorted ascending; malformed tokens are silently dropped.
The claim's own examples hold. -/
theorem C2_hole_input_amended :
    parse_hole_input "1,3,5-9" (some 9) = [1, 3, 5, 6, 7, 8, 9] ∧
    parse_hole_input "1,3,5-9" (some 6) = [1, 3, 5, 6] ∧
    (∀ (s : String) (t : Option ℕ), (parse_hole_input s t).Sorted (· < ·)) ∧
    ∀ (s : String) (H : ℕ), 1 ≤ H →
      parse_hole_input s (some H) = specHoleSelectionUpper s H := by
  refine ⟨by decide, by decide, fun s t => sortedOfFinset_sorted _, ?_⟩
  intro s H hH
  unfold parse_hole_input specHoleSelectionUpper
  congr 1
  ext h
  rw [mem_foldl_union]
  simp only [Finset.not_mem_empty, false_or]
  rw [Finset.mem_filter, Finset.mem_range]
  unfold listedIn
  constructor
  · rintro ⟨p, hp, hmem⟩
    rw [mem_tokenContrib hH] at hmem
    exact ⟨by omega, List.any_eq_true.mpr ⟨p, hp, hmem.1⟩⟩
  · rintro ⟨hrange, hany⟩
    obtain ⟨p, hp, hl⟩ := List.any_eq_true.mp hany
    exact ⟨p, hp, (mem_tokenContrib hH p h).mpr ⟨hl, by omega⟩⟩

/-- Witness for C2: the amended equality applied at `"1,3,5-9"` with
ceiling 9. -/
theorem C2_hole_input_amended_witness :
    1 ≤ 9 ∧ parse_hole_input "1,3,5-9" (some 9) = specHoleSelectionUpper "1,3,5-9" 9 :=
  ⟨by decide, C2_hole_input_amended.2.2.2 "1,3,5-9" 9 (by decide)⟩

/-! ### `normalize_country` (`easy_search.py` lines 31-42, identical logic
in `visual.py` lines 41-52) -/

/-- `str.upper()` (ASCII). -/
def pyUpper (s : String) : String := ⟨s.data.map Char.toUpper⟩

/-- `str.lower()` (ASCII). -/
def pyLower (s : String) : String := ⟨s.data.map Char.toLower⟩

/-- Modelled from the spec: `COUNTRY_MAP` is imported from
`golfzon_scraper` by both search tools, but its definition is not among
the provided sources; the spec describes it as "a fixed closed table
mapping approximately twenty 3-letter codes to full country names".
Entries listed in dict insertion order. -/
def COUNTRY_MAP : List (String × String) :=
  [("KOR", "South Korea"), ("JPN", "Japan"), ("CHN", "China"),
   ("TWN", "Taiwan"), ("THA", "Thailand"), ("VNM", "Vietnam"),
   ("MYS", "Malaysia"), ("SGP", "Singapore"), ("IDN", "Indonesia"),
   ("PHL", "Philippines"), ("AUS", "Australia"), ("NZL", "New Zealand"),
   ("USA", "United States"), ("CAN", "Canada"), ("MEX", "Mexico"),
   ("GBR", "United Kingdom"), ("FRA", "France"), ("DEU", "Germany"),
   ("ESP", "Spain"), ("ITA", "Italy")]

/-- `key in COUNTRY_MAP` / `COUNTRY_MAP[key]` over the insertion-ordered
dict entries. -/
def lookupCode : List (String × String) → String → Option String
  | [], _ => none
  | (c, n) :: rest, key => if key = c then some n else lookupCode rest key

/-- The loop `for code, name in COUNTRY_MAP.items(): if key.lower() ==
name.lower(): return name`. -/
def findName : List (String × String) → String → Option String
  | [], _ => none
  | (_, n) :: rest, key => if pyLower key = pyLower n then some n else findName rest key

/-- `normalize_country`: falsy input gives `None`; a known code (after
strip + upper) maps directly; otherwise a case-insensitive full-name match
returns the canonical name; otherwise the input is returned unchanged. -/
def normalize_country (s : String) : Option String :=
  if s = "" then none
  else
    match lookupCode COUNTRY_MAP (pyUpper (pyStrip s)) with
    | some name => some name
    | none =>
      match findName COUNTRY_MAP (pyUpper (pyStrip s)) with
      | some name => some name
      | none => some s

theorem lookupCode_mem {m : List (String × String)} {k v : String}
    (h : lookupCode m k = some v) : v ∈ m.map Prod.snd := by
  induction m with
  | nil => exact absurd h (by simp [lookupCode])
  | cons p rest ih =>
    obtain ⟨c, n⟩ := p
    rw [lookupCode] at h
    split at h
    · simp only [Option.some.injEq] at h
      subst h
      simp
    · simpa using Or.inr (by simpa using ih h)

theorem lookupCode_key {m : List (String × String)} {k v : String}
    (h : lookupCode m k = some v) : ∃ c, (c, v) ∈ m ∧ k = c := by
  induction m with
  | nil => exact absurd h (by simp [lookupCode])
  | cons p rest ih =>
    obtain ⟨c, n⟩ := p
    rw [lookupCode] at h
    split at h
    · simp only [Option.some.injEq] at h
      subst h
      rename_i hk
      exact ⟨c, by simp, hk⟩
    · obtain ⟨c2, hmem, hk⟩ := ih h
      exact ⟨c2, by simp [hmem], hk⟩

theorem findName_mem {m : List (String × String)} {k v : String}
    (h : findName m k = some v) : v ∈ m.map Prod.snd := by
  induction m with
  | nil => exact absurd h (by simp [findName])
  | cons p rest ih =>
    obtain ⟨c, n⟩ := p
    rw [findName] at h
    split at h
    · simp only [Option.some.injEq] at h
      subst h
      simp
    · simpa using Or.inr (by simpa using ih h)

theorem lookupCode_of_mem {m : List (String × String)} {c n : String}
    (hnd : (m.map Prod.fst).Nodup) (hmem : (c, n) ∈ m) :
    lookupCode m c = some n := by
  induction m with
  | nil => simp at hmem
  | cons p rest ih =>
    obtain ⟨c0, n0⟩ := p
    simp only [List.map_cons, List.nodup_cons, List.mem_map, not_exists,
      Prod.forall] at hnd
    rw [List.mem_cons] at hmem
    rcases hmem with heq | hmem
    · have hc : c = c0 := congrArg Prod.fst heq
      have hn : n = n0 := congrArg Prod.snd heq
      subst hc; subst hn
      simp [lookupCode]
    · rw [lookupCode]
      split
      · rename_i hk
        exact absurd ⟨hmem, hk⟩ (hnd.1 c n)
      · exact ih hnd.2 hmem

theorem findName_of_mem {m : List (String × String)} {c n k : String}
    (hnd : (m.map (fun p => pyLower p.2)).Nodup) (hmem : (c, n) ∈ m)
    (hk : pyLower k = pyLower n) : findName m k = some n := by
  induction m with
  | nil => simp at hmem
  | cons p rest ih =>
    obtain ⟨c0, n0⟩ := p
    simp only [List.map_cons, List.nodup_cons, List.mem_map, not_exists,
      Prod.forall] at hnd
    rw [List.mem_cons] at hmem
    rcases hmem with heq | hmem
    · have hc : c = c0 := congrArg Prod.fst heq
      have hn : n = n0 := congrArg Prod.snd heq
      subst hc; subst hn
      simp [findName, hk]
    · rw [findName]
      split
      · rename_i h0
        have hne : pyLower n = pyLower n0 := by rw [← hk, h0]
        exact absurd ⟨hmem, hne⟩ (hnd.1 c n)
      · exact ih hnd.2 hmem

theorem country_values_fixed :
    ∀ v ∈ COUNTRY_MAP.map Prod.snd, normalize_country v = some v := by decide

theorem country_keys_nodup : (COUNTRY_MAP.map Prod.fst).Nodup := by decide

theorem country_lower_values_nodup :
    (COUNTRY_MAP.map (fun p => pyLower p.2)).Nodup := by decide

theorem country_no_cross_match :
    ∀ p ∈ COUNTRY_MAP, ∀ q ∈ COUNTRY_MAP, ¬ pyLower p.1 = pyLower q.2 := by decide

/-- **C7.** `normalize_country` is idempotent on every non-empty input
(the result of a normalization renormalizes to itself), maps a known
3-letter code (case-insensitively, via strip + upper) to its full name,
maps a case-insensitive match of a mapped full name to that canonical full
name, and returns an unknown token unchanged.  `COUNTRY_MAP` itself is
modelled from the spec (its definition is outside the provided sources). -/
theorem C7_normalize_country_idempotent :
    (∀ x : String, ¬ x = "" →
      ∃ y, normalize_country x = some y ∧ normalize_country y = some y) ∧
    (∀ c n x, (c, n) ∈ COUNTRY_MAP → ¬ x = "" → pyUpper (pyStrip x) = c →
      normalize_country x = some n) ∧
    (∀ c n x, (c, n) ∈ COUNTRY_MAP → ¬ x = "" →
      pyLower (pyUpper (pyStrip x)) = pyLower n → normalize_country x = some n) ∧
    (∀ x : String, ¬ x = "" →
      lookupCode COUNTRY_MAP (pyUpper (pyStrip x)) = none →
      findName COUNTRY_MAP (pyUpper (pyStrip x)) = none →
      normalize_country x = some x) := by
  refine ⟨?_, ?_, ?_, ?_⟩
  · intro x hx
    unfold normalize_country
    rw [if_neg hx]
    cases hl : lookupCode COUNTRY_MAP (pyUpper (pyStrip x)) with
    | some v => exact ⟨v, rfl, country_values_fixed v (lookupCode_mem hl)⟩
    | none =>
      cases hf : findName COUNTRY_MAP (pyUpper (pyStrip x)) with
      | some v => exact ⟨v, rfl, country_values_fixed v (findName_mem hf)⟩
      | none =>
        refine ⟨x, rfl, ?_⟩
        rw [if_neg hx, hl, hf]
  · intro c n x hmem hx hkey
    unfold normalize_country
    rw [if_neg hx, hkey, lookupCode_of_mem country_keys_nodup hmem]
  · intro c n x hmem hx hkey
    unfold normalize_country
    rw [if_neg hx]
    have hl : lookupCode COUNTRY_MAP (pyUpper (pyStrip x)) = none := by
      cases hl : lookupCode COUNTRY_MAP (pyUpper (pyStrip x)) with
      | none => rfl
      | some v =>
        obtain ⟨c2, hmem2, hk2⟩ := lookupCode_key hl
        exact absurd (hk2 ▸ hkey)
          (country_no_cross_match (c2, v) hmem2 (c, n) hmem)
    rw [hl, findName_of_mem country_lower_values_nodup hmem hkey]
  · intro x hx hl hf
    unfold normalize_country
    rw [if_neg hx, hl, hf]

/-- Witness for C7: each clause applied at a concrete input. -/
theorem C7_normalize_country_witness :
    (∃ y, normalize_country "kor" = some y ∧ normalize_country y = some y) ∧
    normalize_country "kor" = some "South Korea" ∧
    normalize_country "  south KOREA " = some "South Korea" ∧
    normalize_country "Atlantis" = some "Atlantis" :=
  ⟨C7_normalize_country_idempotent.1 "kor" (by decide),
   C7_normalize_country_idempotent.2.1 "KOR" "South Korea" "kor"
     (by decide) (by decide) (by decide),
   C7_normalize_country_idempotent.2.2.1 "KOR" "South Korea" "  south KOREA "
     (by decide) (by decide) (by decide),
   C7_normalize_country_idempotent.2.2.2 "Atlantis"
     (by decide) (by decide) (by decide)⟩

/-! ### `within_range` (`easy_search.py` lines 90-94, `visual.py` lines
107-114) and the mode-3 course-yardage fallback filter (`easy_search.py`
lines 231-234) -/

/-- `lo is not None and val < lo`. -/
def belowLo (v : Int) : Option Int → Bool
  | some l => v < l
  | none => false

/-- `hi is not None and val > hi`. -/
def aboveHi (v : Int) : Option Int → Bool
  | some h => h < v
  | none => false

/-- `within_range`: an absent value is rejected before any bound check. -/
def within_range (val lo hi : Option Int) : Bool :=
  match val with
  | none => false
  | some v => if belowLo v lo then false else if aboveHi v hi then false else true

/-- The search-tool view of one course record loaded from the JSON file
(the fields the filters read). -/
structure CourseRec where
  name : String
  country : Option String
  holes : Option Nat
  par : Option Int
  yardage : Option Int
deriving DecidableEq, Repr

/-- Mode 3's `else` branch (no tee color): keep `(c, None, c["yardage"])`
for each course whose yardage passes `within_range`. -/
def modeThreeYardageFilter (ms : List CourseRec) (lo hi : Option Int) :
    List (CourseRec × Option String × Option Int) :=
  ms.filterMap fun c =>
    if within_range c.yardage lo hi then some (c, (none : Option String), c.yardage)
    else none

/-- **C10.** `within_range` returns `False` whenever the tested value is
absent, for every combination of bounds including the unrestricted
`(None, None)`; consequently the yardage-based filter never keeps a course
whose yardage is absent, whatever range expression the user typed. -/
theorem C10_within_range_absent_excluded :
    (∀ lo hi : Option Int, within_range none lo hi = false) ∧
    within_range none none none = false ∧
    (∀ (cs : List CourseRec) (rangeText : String) (c : CourseRec)
        (k : Option String) (y : Option Int),
      (c, k, y) ∈ modeThreeYardageFilter cs (parse_yardage_range rangeText).1
          (parse_yardage_range rangeText).2 →
      c.yardage.isSome = true) := by
  refine ⟨fun lo hi => rfl, rfl, ?_⟩
  intro cs s c k y hmem
  unfold modeThreeYardageFilter at hmem
  rw [List.mem_filterMap] at hmem
  obtain ⟨c2, _, heq⟩ := hmem
  split at heq
  · rename_i hw
    have hc : c2 = c := congrArg (fun p => p.1) (Option.some.inj heq)
    cases hyd : c2.yardage with
    | none => rw [hyd] at hw; exact absurd hw (by simp [within_range])
    | some v => rw [← hc, hyd]; rfl
  · exact absurd heq (by simp)

/-- Witness for C10: the filter-membership clause applied at a concrete
course list and an unparseable range expression. -/
theorem C10_within_range_witness :
    (⟨"A", none, some 18, some 72, some 6200⟩ : CourseRec).yardage.isSome = true :=
  C10_within_range_absent_excluded.2.2 [⟨"A", none, some 18, some 72, some 6200⟩]
    "junk" ⟨"A", none, some 18, some 72, some 6200⟩ none (some 6200) (by decide)

/-! ### `safe_goto` (`golfzon_scraper.py` lines 205-227) -/

/-- The five alternatives of `RETRY_ERR_PATTERN`. -/
def RETRY_PATTERNS : List String :=
  ["ERR_NAME_NOT_RESOLVED", "ERR_CONNECTION_RESET", "ERR_CONNECTION_CLOSED",
   "ERR_ADDRESS_UNREACHABLE", "Timeout"]

/-- `needle` occurs as a contiguous substring of `hay`. -/
def containsSub (needle : List Char) : List Char → Bool
  | [] => needle.isEmpty
  | c :: t => prefixOfL needle (c :: t) || containsSub needle t

/-- `RETRY_ERR_PATTERN.search(msg) is not None`: case-insensitive
substring match of one of the five transient-network signatures. -/
def isRetryable (msg : String) : Bool :=
  RETRY_PATTERNS.any fun p => containsSub (pyLower p).data (pyLower msg).data

/-- Outcome of one `safe_goto` run over a trace of navigation outcomes
(`none` = `page.goto` succeeds, `some msg` = it raises with text `msg`),
recording the backoff sleeps performed in order.  `outOfTrace` marks a
trace too short to decide the run and never arises in the theorems. -/
inductive GotoRes
  | success (sleeps : List ℚ)
  | raised (msg : String) (sleeps : List ℚ)
  | outOfTrace (sleeps : List ℚ)
deriving DecidableEq, Repr

/-- Prepend a performed sleep to a run outcome. -/
def addSleep (q : ℚ) : GotoRes → GotoRes
  | .success s => .success (q :: s)
  | .raised m s => .raised m (q :: s)
  | .outOfTrace s => .outOfTrace (q :: s)

/-- The `while True` loop of `safe_goto`: on an exception the attempt
counter is incremented; a non-retryable message or an attempt count above
`max_retries` re-raises; otherwise sleep `0.5 * attempt` and retry. -/
def safeGotoAux : List (Option String) → Nat → Nat → GotoRes
  | [], _, _ => .outOfTrace []
  | none :: _, _, _ => .success []
  | some msg :: rest, attempt, maxRetries =>
    if isRetryable msg = false ∨ maxRetries < attempt + 1 then .raised msg []
    else
      addSleep ((1/2 : ℚ) * ((attempt : ℚ) + 1))
        (safeGotoAux rest (attempt + 1) maxRetries)

/-- `safe_goto` with its default `max_retries=4`, starting at attempt 0. -/
def safe_goto (trace : List (Option String)) (maxRetries : Nat := 4) : GotoRes :=
  safeGotoAux trace 0 maxRetries

/-- **C6.** A navigation error whose message does not match the
transient-network whitelist is propagated immediately — no sleep, no
retry, whatever the remaining trace; a whitelisted error within the retry
budget sleeps `0.5 * attempt` (the incremented attempt number) and
retries; once the attempt count exceeds `max_retries` the error is
propagated.  The whitelist matches exactly the five documented signatures,
case-insensitively. -/
theorem C6_safe_goto_retry_policy :
    (∀ (msg : String) (rest : List (Option String)) (attempt maxRetries : Nat),
      isRetryable msg = false →
      safeGotoAux (some msg :: rest) attempt maxRetries = .raised msg []) ∧
    (∀ (msg : String) (rest : List (Option String)) (attempt maxRetries : Nat),
      isRetryable msg = true → attempt + 1 ≤ maxRetries →
      safeGotoAux (some msg :: rest) attempt maxRetries =
        addSleep ((1/2 : ℚ) * ((attempt : ℚ) + 1))
          (safeGotoAux rest (attempt + 1) maxRetries)) ∧
    (∀ (msg : String) (rest : List (Option String)) (attempt maxRetries : Nat),
      maxRetries < attempt + 1 →
      safeGotoAux (some msg :: rest) attempt maxRetries = .raised msg []) ∧
    isRetryable "net::ERR_NAME_NOT_RESOLVED at https://x" = true ∧
    isRetryable "net::ERR_CONNECTION_RESET" = true ∧
    isRetryable "net::ERR_CONNECTION_CLOSED" = true ∧
    isRetryable "net::ERR_ADDRESS_UNREACHABLE" = true ∧
    isRetryable "Timeout 10000ms exceeded." = true ∧
    isRetryable "Execution context was destroyed" = false := by
  refine ⟨?_, ?_, ?_, by decide, by decide, by decide, by decide, by decide, by decide⟩
  · intro msg rest attempt maxRetries h
    rw [safeGotoAux, if_pos (Or.inl h)]
  · intro msg rest attempt maxRetries h hle
    rw [safeGotoAux, if_neg]
    push_neg
    exact ⟨by simp [h], by omega⟩
  · intro msg rest attempt maxRetries h
    rw [safeGotoAux, if_pos (Or.inr h)]

/-- Witness for C6: the three retry-policy clauses applied to concrete
traces. -/
theorem C6_safe_goto_witness :
    safeGotoAux [some "Execution context was destroyed", none] 0 4 =
      .raised "Execution context was destroyed" [] ∧
    safeGotoAux [some "Timeout 10000ms exceeded.", none] 0 4 =
      addSleep ((1/2 : ℚ) * (((0 : ℕ) : ℚ) + 1)) (safeGotoAux [none] 1 4) ∧
    safeGotoAux [some "Timeout 10000ms exceeded."] 7 4 =
      .raised "Timeout 10000ms exceeded." [] :=
  ⟨C6_safe_goto_retry_policy.1 "Execution context was destroyed" [none] 0 4 (by decide),
   C6_safe_goto_retry_policy.2.1 "Timeout 10000ms exceeded." [none] 0 4
     (by decide) (by omega),
   C6_safe_goto_retry_policy.2.2.1 "Timeout 10000ms exceeded." [] 7 4 (by omega)⟩

/-! ### `load_all_courses` (`golfzon_scraper.py` lines 39-73) -/

/-- The scroll/count loop of `load_all_courses` over a trace of card
counts (`counts i` is what `page.locator(sel_cards).count()` reports on
iteration `i`; `none` means the call raised, in which case the code keeps
`last_count`).  The "load more" click and the scroll are best-effort
actions whose exceptions are swallowed and which touch no loop variable,
so they do not appear in the state.  Returns the number of iterations
executed. -/
def loadLoop (counts : Nat → Option Int) (maxStagnant : Nat) :
    Nat → Nat → Nat → Int → Nat
  | 0, _, _, _ => 0
  | fuel + 1, i, stagnant, last =>
    if last < (counts i).getD last then
      1 + loadLoop counts maxStagnant fuel (i + 1) 0 ((counts i).getD last)
    else if maxStagnant ≤ stagnant + 1 then 1
    else 1 + loadLoop counts maxStagnant fuel (i + 1) (stagnant + 1) last

/-- `load_all_courses` with its defaults: `max_stagnant_rounds=2`,
`max_iters=220`, starting from `stagnant=0`, `last_count=-1`. -/
def load_all_courses (counts : Nat → Option Int) (maxStagnant : Nat := 2)
    (maxIters : Nat := 220) : Nat :=
  loadLoop counts maxStagnant maxIters 0 0 (-1)

theorem loadLoop_le_fuel (counts : Nat → Option Int) (m : Nat) :
    ∀ (fuel i s : Nat) (last : Int), loadLoop counts m fuel i s last ≤ fuel := by
  intro fuel
  induction fuel with
  | zero => intro i s last; rw [loadLoop]
  | succ f ih =>
    intro i s last
    rw [loadLoop]
    split
    · have := ih (i + 1) 0 ((counts i).getD last)
      omega
    · split
      · omega
      · have := ih (i + 1) (s + 1) last
        omega

theorem loadLoop_stagnation (counts : Nat → Option Int) (m : Nat) :
    ∀ (fuel i s : Nat) (last : Int), s < m → m - s ≤ fuel →
      (∀ j, i ≤ j → ∀ c, counts j = some c → c ≤ last) →
      loadLoop counts m fuel i s last ≤ m - s := by
  intro fuel
  induction fuel with
  | zero => intro i s last hs hf _; omega
  | succ f ih =>
    intro i s last hs hf hstall
    rw [loadLoop]
    have hcount : ¬ last < (counts i).getD last := by
      cases hc : counts i with
      | none => simp
      | some c =>
        have := hstall i (le_refl i) c hc
        simp
        omega
    rw [if_neg hcount]
    split
    · omega
    · rename_i hnm
      have hrec := ih (i + 1) (s + 1) last (by omega) (by omega)
        (fun j hj c hc => hstall j (by omega) c hc)
      omega

/-- **C8.** The listing-loader loop always terminates: it executes at most
`max_iters` iterations in every case, and once the reported card count
stops increasing (every later reported count is at most the current
`last_count`, including iterations where the count call raises), it exits
within `max_stagnant_rounds − stagnant` further iterations — in
particular within `max_stagnant_rounds` when stagnation starts at 0.
Whether a "load more" control exists or its click throws is irrelevant:
those exceptions are swallowed and touch no loop state. -/
theorem C8_listing_loader_terminates :
    (∀ (counts : Nat → Option Int) (m fuel i s : Nat) (last : Int),
      loadLoop counts m fuel i s last ≤ fuel) ∧
    (∀ (counts : Nat → Option Int), load_all_courses counts ≤ 220) ∧
    (∀ (counts : Nat → Option Int) (m fuel i s : Nat) (last : Int),
      s < m → m - s ≤ fuel →
      (∀ j, i ≤ j → ∀ c, counts j = some c → c ≤ last) →
      loadLoop counts m fuel i s last ≤ m - s) :=
  ⟨fun counts m fuel i s last => loadLoop_le_fuel counts m fuel i s last,
   fun counts => loadLoop_le_fuel counts 2 220 0 0 (-1),
   fun counts m fuel i s last hs hf hstall =>
     loadLoop_stagnation counts m fuel i s last hs hf hstall⟩

/-- Witness for C8: a trace whose reported count is always 5 with
`last_count` already 5 exits within the default 2 stagnation rounds. -/
theorem C8_listing_loader_witness :
    loadLoop (fun _ => some 5) 2 220 0 0 5 ≤ 2 - 0 :=
  C8_listing_loader_terminates.2.2 (fun _ => some 5) 2 220 0 0 5 (by omega) (by omega)
    (fun j hj c hc => by injection hc with h; omega)

/-! ### `extract_per_hole_info` (`golfzon_scraper.py` lines 106-201) and
the per-course loop of `main` (lines 281-309).

The DOM is abstracted at the selector boundary: each structure field
records what the corresponding Playwright/BeautifulSoup query returns
(`none` = no match / the call raised where noted).  The extraction logic
itself — fallback order, positional heuristics, truthiness checks,
dict-overwrite semantics — is translated from the source. -/

/-- One tee row of the output. -/
structure TeeEntry where
  tee : String
  distance : Option Int
  height : Option ℚ
deriving DecidableEq, Repr

/-- One hole record of the output. -/
structure HoleRec where
  par : Option Int
  tees : List TeeEntry
  video : Option String
deriving DecidableEq, Repr

/-- One `div.flex.items-center.justify-between.border-b` row:
`teeNameText` is the `div.gz-text-md` text, `distText` / `heightText` the
`w-[78px]` / `w-[92px]` cells, `cellTexts` all `div` descendants' texts
(for the positional fallback). -/
structure RowAbs where
  teeNameText : Option String
  distText : Option String
  heightText : Option String
  cellTexts : List String
deriving DecidableEq, Repr

/-- Python truthiness of an optional attribute string. -/
def pyTruthyStr : Option String → Bool
  | none => false
  | some s => s ≠ ""

/-- A `<video>` element's attributes and its first `<source>` child's. -/
structure VideoEl where
  src : Option String
  dataSrc : Option String
  sourceChild : Option (Option String × Option String)
deriving DecidableEq, Repr

/-- `_get_video_url`: try the video's `src` then `data-src` (skipping
falsy empty strings), then the same on its `<source>` child. -/
def get_video_url : Option VideoEl → Option String
  | none => none
  | some el =>
    if pyTruthyStr el.src then el.src
    else if pyTruthyStr el.dataSrc then el.dataSrc
    else match el.sourceChild with
      | none => none
      | some (csrc, cdsrc) =>
        if pyTruthyStr csrc then csrc
        else if pyTruthyStr cdsrc then cdsrc
        else none

/-- The detail panel parsed after a tab click: the `span.gz-text-xsm` par
text, the tee rows, and the video element. -/
structure BlockAbs where
  parSpanText : Option String
  rows : List RowAbs
  video : Option VideoEl
deriving DecidableEq, Repr

/-- One child of the `.tabs-scroll` strip: its `inner_text()` (`none` = it
raised), whether the direct and the programmatic click succeed, and the
panel query results after the click. -/
structure TabAbs where
  label : Option String
  clickOk : Bool
  evalClickOk : Bool
  primaryBlock : Option BlockAbs
  fallbackBlocks : List BlockAbs
deriving DecidableEq, Repr

/-- The detail page as `extract_per_hole_info` sees it: whether
`.tabs-scroll` appears within the timeout, whether `tabs.count()`
succeeds, and the tab children. -/
structure PageAbs where
  tabsScrollAppears : Bool
  tabsCountOk : Bool
  tabs : List TabAbs
deriving DecidableEq, Repr

/-- `re.fullmatch(r"\d+\s*H", label, re.I)` on a stripped label: a
nonempty digit run, optional whitespace, then a final `H`/`h`. -/
def isHoleLabel (l : List Char) : Bool :=
  !(l.takeWhile Char.isDigit).isEmpty &&
    (((l.dropWhile Char.isDigit).dropWhile Char.isWhitespace) = ['H'] ||
     ((l.dropWhile Char.isDigit).dropWhile Char.isWhitespace) = ['h'])

/-- `int(re.sub(r"\D", "", label))`: the label's digits. -/
def holeNumOf (l : List Char) : Nat := digitsVal (l.filter Char.isDigit)

/-- One row to at most one tee entry: if any of the three primary
selectors missed and the row has at least 3 `div` cells, the name falls
back to the first cell and distance/elevation to the first two numeric
cells after it; a row still missing a cell contributes nothing. -/
def rowTee (r : RowAbs) : Option TeeEntry :=
  let trip :=
    if r.teeNameText.isSome && r.distText.isSome && r.heightText.isSome then
      (r.teeNameText, r.distText, r.heightText)
    else if 3 ≤ r.cellTexts.length then
      let n1 := if r.teeNameText.isSome then r.teeNameText else r.cellTexts.head?
      match r.cellTexts.tail.filter (fun t => hasDigit t) with
      | a :: b :: _ =>
        (n1, (if r.distText.isSome then r.distText else some a),
         (if r.heightText.isSome then r.heightText else some b))
      | _ => (n1, r.distText, r.heightText)
    else (r.teeNameText, r.distText, r.heightText)
  match trip with
  | (some nt, some dt, some ht) =>
    some ⟨pyStrip nt, to_int_maybe (pyStrip dt), to_float_maybe (pyStrip ht)⟩
  | _ => none

/-- One hole tab to at most one hole record: a tab that cannot be clicked
either way is skipped, as is one whose panel yields no block (neither
`div.block` nor the `div.block, section, article` fallback). -/
def buildHole (t : TabAbs) : Option HoleRec :=
  if t.clickOk = false ∧ t.evalClickOk = false then none
  else
    match (if t.primaryBlock.isSome then t.primaryBlock else t.fallbackBlocks.head?) with
    | none => none
    | some b =>
      some
        { par := match b.parSpanText with
                 | none => none
                 | some s => to_int_maybe (pyStrip s)
          tees := b.rows.filterMap rowTee
          video := get_video_url b.video }

/-- `holes_data[hole_num] = ...`: dict assignment keeps the position of an
existing key and appends a new key at the end. -/
def dictInsert (k : Nat) (v : HoleRec) : List (Nat × HoleRec) → List (Nat × HoleRec)
  | [] => [(k, v)]
  | (k2, v2) :: rest =>
    if k2 = k then (k2, v) :: rest else (k2, v2) :: dictInsert k v rest

/-- The `hole_tabs` list: tabs whose stripped `inner_text` fullmatches
`\d+\s*H`, paired with the parsed hole number. -/
def holeTabEntries (tabs : List TabAbs) : List (TabAbs × Nat) :=
  tabs.filterMap fun t =>
    match t.label with
    | none => none
    | some raw =>
      if isHoleLabel (pyStrip raw).data then some (t, holeNumOf (pyStrip raw).data)
      else none

/-- `extract_per_hole_info`: empty dict if the tab strip never appears, if
counting tabs raises, or if no child matches the hole-label pattern;
otherwise fold every clickable hole tab's record into the dict. -/
def extract_per_hole_info (p : PageAbs) : List (Nat × HoleRec) :=
  if p.tabsScrollAppears = false then []
  else if p.tabsCountOk = false then []
  else if (holeTabEntries p.tabs).isEmpty then []
  else
    (holeTabEntries p.tabs).foldl
      (fun acc tn =>
        match buildHole tn.1 with
        | none => acc
        | some h => dictInsert tn.2 h acc) []

/-- How processing one course ends: the body completes (with the
aggregate-extraction results and the page state the per-hole extractor
sees), or one of the three `except` arms fires. -/
inductive CourseStep
  | completed (holes par yardage : Option Int) (page : PageAbs)
  | timeoutError
  | keyboardInterrupt
  | otherError
deriving DecidableEq

/-- One record of the scraper's `results` list. -/
structure ScrapedCourse where
  name : String
  url : String
  holes : Option Int
  par : Option Int
  yardage : Option Int
  per_hole : List (Nat × HoleRec)
deriving DecidableEq, Repr

/-- The per-course loop of `main` (lines 282-309): a completed body
appends one record; `TimeoutError` and generic exceptions print and move
on without appending; `KeyboardInterrupt` breaks out, keeping what was
accumulated. -/
def mainLoop (step : Nat → CourseStep) : List (String × String) → Nat → List ScrapedCourse
  | [], _ => []
  | (name, url) :: rest, i =>
    match step i with
    | .completed h p y pg =>
      ⟨name, url, h, p, y, extract_per_hole_info pg⟩ :: mainLoop step rest (i + 1)
    | .timeoutError => mainLoop step rest (i + 1)
    | .otherError => mainLoop step rest (i + 1)
    | .keyboardInterrupt => []

/-- The step is the `KeyboardInterrupt` arm. -/
def isInterrupt : CourseStep → Bool
  | .keyboardInterrupt => true
  | _ => false

/-- The record a course link contributes for a given step outcome:
one record when the body completes, nothing otherwise. -/
def stepRecord (l : String × String) : CourseStep → Option ScrapedCourse
  | .completed h p y pg => some ⟨l.1, l.2, h, p, y, extract_per_hole_info pg⟩
  | _ => none

theorem isInterrupt_completed (h p y : Option Int) (pg : PageAbs) :
    isInterrupt (CourseStep.completed h p y pg) = false := rfl

theorem isInterrupt_timeout : isInterrupt CourseStep.timeoutError = false := rfl

theorem isInterrupt_other : isInterrupt CourseStep.otherError = false := rfl

theorem stepRecord_completed (l : String × String) (h p y : Option Int) (pg : PageAbs) :
    stepRecord l (CourseStep.completed h p y pg) =
      some ⟨l.1, l.2, h, p, y, extract_per_hole_info pg⟩ := rfl

theorem stepRecord_timeout (l : String × String) :
    stepRecord l CourseStep.timeoutError = none := rfl

theorem stepRecord_other (l : String × String) :
    stepRecord l CourseStep.otherError = none := rfl

/-- **C1 (counterexample).** A course whose detail navigation raises
`TimeoutError` is NOT appended to `results`: the except arm only prints,
so a one-course run whose only course times out yields an empty list — no
record with the course's listing-level fields exists. -/
theorem C1_counterexample_timeout_drops_course :
    mainLoop (fun _ => CourseStep.timeoutError) [("Course A", "https://x/a")] 0 = [] ∧
    ¬ ∃ r ∈ mainLoop (fun _ => CourseStep.timeoutError) [("Course A", "https://x/a")] 0,
        r.name = "Course A" := by
  refine ⟨rfl, ?_⟩
  rintro ⟨r, hr, -⟩
  have hempty :
      mainLoop (fun _ => CourseStep.timeoutError) [("Course A", "https://x/a")] 0 = [] := rfl
  rw [hempty] at hr
  exact absurd hr (List.not_mem_nil r)

/-- **C1 (amended).** The per-course loop yields exactly one record per
course whose body completes, in listing order up to the first interrupt; a
course whose detail navigation times out (or fails otherwise) contributes
NO record — it is omitted from the serialized output — while processing
continues with the following courses.  The second conjunct demonstrates
this: course A times out, course B completes, and only B's record is
saved. -/
theorem C1_main_loop_amended :
    (∀ (step : Nat → CourseStep) (links : List (String × String)) (i : Nat),
      mainLoop step links i =
        ((links.enumFrom i).takeWhile fun ji => !isInterrupt (step ji.1)).filterMap
          fun ji => stepRecord ji.2 (step ji.1)) ∧
    mainLoop
        (fun i => if i = 0 then CourseStep.timeoutError
                  else CourseStep.completed none none none ⟨false, true, []⟩)
        [("Course A", "https://x/a"), ("Course B", "https://x/b")] 0 =
      [⟨"Course B", "https://x/b", none, none, none, []⟩] := by
  refine ⟨?_, rfl⟩
  intro step links
  induction links with
  | nil => intro i; rfl
  | cons l rest ih =>
    intro i
    obtain ⟨name, url⟩ := l
    rw [List.enumFrom]
    cases hstep : step i with
    | completed h p y pg =>
      rw [mainLoop, hstep, List.takeWhile_cons]
      simp only [hstep, isInterrupt_completed, Bool.not_false, if_true,
        List.filterMap_cons, stepRecord_completed]
      rw [ih (i + 1)]
    | timeoutError =>
      rw [mainLoop, hstep, List.takeWhile_cons]
      simp only [hstep, isInterrupt_timeout, Bool.not_false, if_true,
        List.filterMap_cons, stepRecord_timeout]
      rw [ih (i + 1)]
    | otherError =>
      rw [mainLoop, hstep, List.takeWhile_cons]
      simp only [hstep, isInterrupt_other, Bool.not_false, if_true,
        List.filterMap_cons, stepRecord_other]
      rw [ih (i + 1)]
    | keyboardInterrupt =>
      rw [mainLoop, hstep, List.takeWhile_cons]
      simp [hstep, isInterrupt]

/-- **C9.** A course whose detail page yields zero hole tabs — the tab
strip never appears, counting the tabs raises, the strip has no children,
or no child's label fullmatches `\d+\s*H` — gives an empty `per_hole`
mapping without raising, and the per-course loop still appends a record
for such a course, with `per_hole` empty. -/
theorem C9_zero_hole_tabs_empty_map :
    (∀ p : PageAbs, p.tabsScrollAppears = false → extract_per_hole_info p = []) ∧
    (∀ p : PageAbs, p.tabsCountOk = false → extract_per_hole_info p = []) ∧
    (∀ p : PageAbs, p.tabs = [] → extract_per_hole_info p = []) ∧
    (∀ p : PageAbs,
      (∀ t ∈ p.tabs, ∀ raw, t.label = some raw →
        isHoleLabel (pyStrip raw).data = false) →
      extract_per_hole_info p = []) ∧
    (∀ (name url : String) (rest : List (String × String)) (step : Nat → CourseStep)
        (i : Nat) (h pa ya : Option Int) (pg : PageAbs),
      step i = CourseStep.completed h pa ya pg → extract_per_hole_info pg = [] →
      mainLoop step ((name, url) :: rest) i =
        ⟨name, url, h, pa, ya, []⟩ :: mainLoop step rest (i + 1)) := by
  refine ⟨?_, ?_, ?_, ?_, ?_⟩
  · intro p h
    unfold extract_per_hole_info
    rw [if_pos h]
  · intro p h
    simp [extract_per_hole_info, h]
  · intro p h
    simp [extract_per_hole_info, h, holeTabEntries]
  · intro p h
    have hnil : holeTabEntries p.tabs = [] := by
      refine List.filterMap_eq_nil_iff.mpr ?_
      intro t ht
      cases hl : t.label with
      | none => rfl
      | some raw =>
        have hfalse := h t ht raw hl
        simp only [hfalse]
        rfl
    unfold extract_per_hole_info
    rw [hnil]
    simp
  · intro name url rest step i h pa ya pg hstep hext
    rw [mainLoop, hstep]
    simp only [hext]

/-- Witness for C9: a page whose single tab is labelled `"Par 3"` (not a
hole label) yields the empty mapping, and a completed course with an
empty extraction still gets its record appended. -/
theorem C9_zero_hole_tabs_witness :
    extract_per_hole_info
        ⟨true, true, [⟨some "Par 3", true, true, none, []⟩]⟩ = [] ∧
    mainLoop (fun _ => CourseStep.completed (some 9) none none ⟨false, true, []⟩)
        [("Course B", "https://x/b")] 0 =
      ⟨"Course B", "https://x/b", some 9, none, none, []⟩ ::
        mainLoop (fun _ => CourseStep.completed (some 9) none none ⟨false, true, []⟩)
          [] 1 :=
  ⟨C9_zero_hole_tabs_empty_map.2.2.2.1 ⟨true, true, [⟨some "Par 3", true, true, none, []⟩]⟩
    (by
      intro t ht raw hraw
      rw [List.mem_singleton] at ht
      subst ht
      have hr : raw = "Par 3" := by
        have := hraw
        simp only [Option.some.injEq] at this
        exact this.symm
      subst hr
      decide),
   C9_zero_hole_tabs_empty_map.2.2.2.2 "Course B" "https://x/b" []
     (fun _ => CourseStep.completed (some 9) none none ⟨false, true, []⟩) 0
     (some 9) none none ⟨false, true, []⟩ rfl
     (C9_zero_hole_tabs_empty_map.1 ⟨false, true, []⟩ rfl)⟩

/-! ### JSON round-trip (`json.dump` at `golfzon_scraper.py` lines
323-324, reloaded by the search tools).

Python values and JSON documents are modelled as trees (`PyVal` / `JVal`);
the byte-level encoding is the out-of-scope `json` library.  The one
behavior that matters for the round-trip claim survives at tree level:
`json.dump` converts an `int` dict key to its decimal string, and
`json.load` always returns string keys.  `PyList`/`PyEntries` (and the
`JVal` counterparts) are inlined list types so every function here is
structurally recursive and kernel-evaluable. -/

/-- A Python dict key as the scraper produces them: `extract_per_hole_info`
uses `int` hole numbers, everything else uses strings. -/
inductive PyKey
  | kint (n : Int)
  | kstr (s : String)
deriving DecidableEq, Repr

mutual
inductive PyVal
  | vnone
  | vbool (b : Bool)
  | vint (n : Int)
  | vfloat (q : ℚ)
  | vstr (s : String)
  | vlist (xs : PyList)
  | vdict (es : PyEntries)
deriving DecidableEq, Repr
inductive PyList
  | nil
  | cons (v : PyVal) (tail : PyList)
deriving DecidableEq, Repr
inductive PyEntries
  | nil
  | cons (k : PyKey) (v : PyVal) (tail : PyEntries)
deriving DecidableEq, Repr
end

mutual
inductive JVal
  | jnull
  | jbool (b : Bool)
  | jint (n : Int)
  | jfloat (q : ℚ)
  | jstr (s : String)
  | jarr (xs : JList)
  | jobj (es : JEntries)
deriving DecidableEq, Repr
inductive JList
  | nil
  | cons (v : JVal) (tail : JList)
deriving DecidableEq, Repr
inductive JEntries
  | nil
  | cons (k : String) (v : JVal) (tail : JEntries)
deriving DecidableEq, Repr
end

/-- Decimal digits of `n` (with enough fuel), most significant first. -/
def natDec (fuel n : Nat) : List Char :=
  match fuel with
  | 0 => []
  | f + 1 =>
    if n < 10 then [Char.ofNat (48 + n)]
    else natDec f (n / 10) ++ [Char.ofNat (48 + n % 10)]

/-- `str(n)` for an `int`. -/
def intStr : Int → String
  | .ofNat m => ⟨natDec (m + 1) m⟩
  | .negSucc m => ⟨'-' :: natDec (m + 2) (m + 1)⟩

/-- How `json.dump` renders a dict key: an `int` key becomes its decimal
string, a string key stays itself. -/
def keyStr : PyKey → String
  | .kint n => intStr n
  | .kstr s => s

mutual
def dumpVal : PyVal → JVal
  | .vnone => .jnull
  | .vbool b => .jbool b
  | .vint n => .jint n
  | .vfloat q => .jfloat q
  | .vstr s => .jstr s
  | .vlist xs => .jarr (dumpList xs)
  | .vdict es => .jobj (dumpEntries es)
def dumpList : PyList → JList
  | .nil => .nil
  | .cons v vs => .cons (dumpVal v) (dumpList vs)
def dumpEntries : PyEntries → JEntries
  | .nil => .nil
  | .cons k v es => .cons (keyStr k) (dumpVal v) (dumpEntries es)
end

mutual
def loadVal : JVal → PyVal
  | .jnull => .vnone
  | .jbool b => .vbool b
  | .jint n => .vint n
  | .jfloat q => .vfloat q
  | .jstr s => .vstr s
  | .jarr xs => .vlist (loadList xs)
  | .jobj es => .vdict (loadEntries es)
def loadList : JList → PyList
  | .nil => .nil
  | .cons v vs => .cons (loadVal v) (loadList vs)
def loadEntries : JEntries → PyEntries
  | .nil => .nil
  | .cons k v es => .cons (.kstr k) (loadVal v) (loadEntries es)
end

mutual
def strKeysVal : PyVal → PyVal
  | .vnone => .vnone
  | .vbool b => .vbool b
  | .vint n => .vint n
  | .vfloat q => .vfloat q
  | .vstr s => .vstr s
  | .vlist xs => .vlist (strKeysList xs)
  | .vdict es => .vdict (strKeysEntries es)
def strKeysList : PyList → PyList
  | .nil => .nil
  | .cons v vs => .cons (strKeysVal v) (strKeysList vs)
def strKeysEntries : PyEntries → PyEntries
  | .nil => .nil
  | .cons k v es => .cons (.kstr (keyStr k)) (strKeysVal v) (strKeysEntries es)
end

/-- The key is a string key. -/
def keyIsStr : PyKey → Bool
  | .kstr _ => true
  | .kint _ => false

mutual
def allKeysStrVal : PyVal → Bool
  | .vlist xs => allKeysStrList xs
  | .vdict es => allKeysStrEntries es
  | _ => true
def allKeysStrList : PyList → Bool
  | .nil => true
  | .cons v vs => allKeysStrVal v && allKeysStrList vs
def allKeysStrEntries : PyEntries → Bool
  | .nil => true
  | .cons k v es => keyIsStr k && allKeysStrVal v && allKeysStrEntries es
end

mutual
theorem load_dump_val : ∀ v : PyVal, loadVal (dumpVal v) = strKeysVal v
  | .vnone => rfl
  | .vbool _ => rfl
  | .vint _ => rfl
  | .vfloat _ => rfl
  | .vstr _ => rfl
  | .vlist xs => by
    rw [dumpVal, loadVal, strKeysVal, load_dump_list xs]
  | .vdict es => by
    rw [dumpVal, loadVal, strKeysVal, load_dump_entries es]
theorem load_dump_list : ∀ xs : PyList, loadList (dumpList xs) = strKeysList xs
  | .nil => rfl
  | .cons v vs => by
    rw [dumpList, loadList, strKeysList, load_dump_val v, load_dump_list vs]
theorem load_dump_entries : ∀ es : PyEntries, loadEntries (dumpEntries es) = strKeysEntries es
  | .nil => rfl
  | .cons k v es => by
    rw [dumpEntries, loadEntries, strKeysEntries, load_dump_val v, load_dump_entries es]
end

mutual
theorem strKeys_id_val : ∀ v : PyVal, allKeysStrVal v = true → strKeysVal v = v
  | .vnone, _ => rfl
  | .vbool _, _ => rfl
  | .vint _, _ => rfl
  | .vfloat _, _ => rfl
  | .vstr _, _ => rfl
  | .vlist xs, h => by
    rw [strKeysVal, strKeys_id_list xs (by simpa [allKeysStrVal] using h)]
  | .vdict es, h => by
    rw [strKeysVal, strKeys_id_entries es (by simpa [allKeysStrVal] using h)]
theorem strKeys_id_list : ∀ xs : PyList, allKeysStrList xs = true → strKeysList xs = xs
  | .nil, _ => rfl
  | .cons v vs, h => by
    rw [allKeysStrList, Bool.and_eq_true] at h
    rw [strKeysList, strKeys_id_val v h.1, strKeys_id_list vs h.2]
theorem strKeys_id_entries :
    ∀ es : PyEntries, allKeysStrEntries es = true → strKeysEntries es = es
  | .nil, _ => rfl
  | .cons k v es, h => by
    rw [allKeysStrEntries, Bool.and_eq_true, Bool.and_eq_true] at h
    obtain ⟨⟨hk, hv⟩, hes⟩ := h
    rw [strKeysEntries, strKeys_id_val v hv, strKeys_id_entries es hes]
    cases k with
    | kstr s => rfl
    | kint n => exact absurd hk (by simp [keyIsStr])
end

mutual
theorem load_allKeysStr : ∀ j : JVal, allKeysStrVal (loadVal j) = true
  | .jnull => rfl
  | .jbool _ => rfl
  | .jint _ => rfl
  | .jfloat _ => rfl
  | .jstr _ => rfl
  | .jarr xs => by rw [loadVal, allKeysStrVal, load_allKeysStr_list xs]
  | .jobj es => by rw [loadVal, allKeysStrVal, load_allKeysStr_entries es]
theorem load_allKeysStr_list : ∀ xs : JList, allKeysStrList (loadList xs) = true
  | .nil => rfl
  | .cons v vs => by
    rw [loadList, allKeysStrList, load_allKeysStr v, load_allKeysStr_list vs]
    rfl
theorem load_allKeysStr_entries : ∀ es : JEntries, allKeysStrEntries (loadEntries es) = true
  | .nil => rfl
  | .cons k v es => by
    simp [loadEntries, allKeysStrEntries, keyIsStr, load_allKeysStr v,
      load_allKeysStr_entries es]
end

/-- `None`, optional ints, floats, strings as Python values. -/
def optIntPy : Option Int → PyVal
  | none => .vnone
  | some n => .vint n

def optFloatPy : Option ℚ → PyVal
  | none => .vnone
  | some q => .vfloat q

def optStrPy : Option String → PyVal
  | none => .vnone
  | some s => .vstr s

/-- Build `PyEntries` from a Lean list. -/
def entriesOfList : List (PyKey × PyVal) → PyEntries
  | [] => .nil
  | (k, v) :: rest => .cons k v (entriesOfList rest)

/-- Build `PyList` from a Lean list. -/
def pyListOf : List PyVal → PyList
  | [] => .nil
  | v :: rest => .cons v (pyListOf rest)

/-- One tee dict as built at line 196. -/
def teeToPy (t : TeeEntry) : PyVal :=
  .vdict (entriesOfList
    [(.kstr "tee", .vstr t.tee), (.kstr "distance", optIntPy t.distance),
     (.kstr "height", optFloatPy t.height)])

/-- One hole dict as built at line 199. -/
def holeToPy (h : HoleRec) : PyVal :=
  .vdict (entriesOfList
    [(.kstr "par", optIntPy h.par),
     (.kstr "tees", .vlist (pyListOf (h.tees.map teeToPy))),
     (.kstr "video", optStrPy h.video)])

/-- `holes_data` as a Python dict: the keys are the `int` hole numbers. -/
def perHoleToPy : List (Nat × HoleRec) → PyEntries
  | [] => .nil
  | (k, h) :: rest => .cons (.kint (k : Int)) (holeToPy h) (perHoleToPy rest)

/-- One record of `results` as built at lines 293-300. -/
def courseToPy (c : ScrapedCourse) : PyVal :=
  .vdict (entriesOfList
    [(.kstr "name", .vstr c.name), (.kstr "url", .vstr c.url),
     (.kstr "holes", optIntPy c.holes), (.kstr "par", optIntPy c.par),
     (.kstr "yardage", optIntPy c.yardage),
     (.kstr "per_hole", .vdict (perHoleToPy c.per_hole))])

/-- A one-course assembly with a single hole tab `5H`: its `per_hole` key
is the `int` 5. -/
def sampleAssembled : PyVal :=
  courseToPy ⟨"Course A", "https://x/a", some 9, none, none, [(5, ⟨some 4, [], none⟩)]⟩

/-- The same record as it comes back from `json.load`: identical except
that the `per_hole` key is now the string `"5"`. -/
def sampleReloaded : PyVal :=
  .vdict (entriesOfList
    [(.kstr "name", .vstr "Course A"), (.kstr "url", .vstr "https://x/a"),
     (.kstr "holes", .vint 9), (.kstr "par", .vnone), (.kstr "yardage", .vnone),
     (.kstr "per_hole", .vdict (.cons (.kstr "5") (holeToPy ⟨some 4, [], none⟩) .nil))])

/-- **C3 (counterexample).** Dump-then-load is NOT the identity on the
assembled records: `extract_per_hole_info` keys `per_hole` by `int` hole
numbers, and `json.dump`/`json.load` turn the key `5` into the string
`"5"`, so the reloaded record differs from the in-memory one in exactly
the key type. -/
theorem C3_counterexample_int_keys :
    ¬ loadVal (dumpVal sampleAssembled) = sampleAssembled ∧
    loadVal (dumpVal sampleAssembled) = sampleReloaded :=
  ⟨by decide, by decide⟩

/-- **C3 (amended).** Dump-then-load sends every Python value to the same
value with every dict key replaced by its string rendering (`int` keys
become decimal strings, string keys stay); field values are preserved
exactly.  Hence it is the identity precisely on values all of whose dict
keys are already strings — in particular on everything `json.load`
returns (the file's `per_hole` keys are strings), but not on the
in-memory assembled records, whose `per_hole` keys are ints. -/
theorem C3_roundtrip_amended :
    (∀ v : PyVal, loadVal (dumpVal v) = strKeysVal v) ∧
    (∀ v : PyVal, allKeysStrVal v = true → loadVal (dumpVal v) = v) ∧
    (∀ j : JVal, allKeysStrVal (loadVal j) = true) := by
  refine ⟨load_dump_val, ?_, ?_⟩
  · intro v h
    rw [load_dump_val v, strKeys_id_val v h]
  · intro j
    exact load_allKeysStr j

/-- Witness for C3: the amended identity applied to the reloaded sample
record, whose keys are all strings. -/
theorem C3_roundtrip_amended_witness :
    allKeysStrVal sampleReloaded = true ∧
    loadVal (dumpVal sampleReloaded) = sampleReloaded :=
  ⟨by decide, C3_roundtrip_amended.2.1 sampleReloaded (by decide)⟩

end TeeTimes
